import Mathlib

/-!
# CSV campaign parser and dispatcher (`batchcampaign.go`)

A shallow embedding of `fetchAndParseCsv`, `processColumnValue`,
`handleDynamicColumns` and `fetchCSVAndSendAPIRequests`.
Go strings are Lean `String`s; the optional pointer fields `*string` are
`Option String`; Go slices are `List`s.
-/

namespace CsvCampaign

/-! ## `strings.Split(s, ":")` -/

/-- Splitting of a character list at every occurrence of `sep`:
the result always has one more piece than there are separators. -/
def splitChars (sep : Char) : List Char → List (List Char)
  | [] => [[]]
  | c :: cs =>
    if c = sep then [] :: splitChars sep cs
    else
      match splitChars sep cs with
      | [] => [[c]]
      | piece :: pieces => (c :: piece) :: pieces

/-- Go's `strings.Split(s, string(sep))` for a one-character separator. -/
def stringsSplit (s : String) (sep : Char) : List String :=
  (splitChars sep s.data).map String.mk

/-! ## Data model -/

/-- Counterpart of `connectlyTemplateMessageParametersDTO`. -/
structure connectlyTemplateMessageParametersDTO where
  Name : String
  Value : Option String := none
  FileName : Option String := none
  deriving DecidableEq, Repr

/-- Counterpart of `connectlyTemplateMessageDTO`. -/
structure connectlyTemplateMessageDTO where
  Sender : String := ""
  Number : String := ""
  Language : String := ""
  TemplateName : String := ""
  TemplateParameters : List connectlyTemplateMessageParametersDTO := []
  CampaignName : String := ""
  deriving DecidableEq, Repr

/-! ## Row mapper -/

/-- The `case "filename"` loop of `handleDynamicColumns`: the first parameter
named `header_document` receives the file name when the cell is non-empty;
the loop returns at that parameter either way. -/
def attachFileName (value : String) :
    List connectlyTemplateMessageParametersDTO → List connectlyTemplateMessageParametersDTO
  | [] => []
  | p :: ps =>
    if p.Name = "header_document" then
      (if value ≠ "" then { p with FileName := some value } else p) :: ps
    else p :: attachFileName value ps

/-- The `default` loop of `handleDynamicColumns`: the first parameter whose
name is `name` receives the value when the cell is non-empty; the loop returns
at that parameter either way. -/
def assignValue (name value : String) :
    List connectlyTemplateMessageParametersDTO → List connectlyTemplateMessageParametersDTO
  | [] => []
  | p :: ps =>
    if p.Name = name then
      (if value ≠ "" then { p with Value := some value } else p) :: ps
    else p :: assignValue name value ps

/-- Counterpart of `handleDynamicColumns`. -/
def handleDynamicColumns (message : connectlyTemplateMessageDTO) (columnName value : String) :
    connectlyTemplateMessageDTO :=
  match stringsSplit columnName ':' with
  | [_, suffix] =>
    if suffix = "filename" then
      { message with TemplateParameters := attachFileName value message.TemplateParameters }
    else
      { message with TemplateParameters := assignValue suffix value message.TemplateParameters }
  | _ => message

/-- Counterpart of `processColumnValue`. -/
def processColumnValue (message : connectlyTemplateMessageDTO) (columnName value : String) :
    connectlyTemplateMessageDTO :=
  if columnName = "sender" then { message with Sender := value }
  else if columnName = "number" then { message with Number := value }
  else if columnName = "language" then { message with Language := value }
  else if columnName = "campaign_name" then { message with CampaignName := value }
  else handleDynamicColumns message columnName value

/-! ## Header scan (schema extraction) -/

/-- One iteration of the header loop of `fetchAndParseCsv`; the state is the
pair of the local variables `templateName` and `params`. -/
def headerStep (st : String × List connectlyTemplateMessageParametersDTO) (element : String) :
    String × List connectlyTemplateMessageParametersDTO :=
  match stringsSplit element ':' with
  | [part0, part1] =>
    if part1 = "filename" then st
    else
      let templateName := if st.1 = "" then part0 else st.1
      if part0 = templateName then (templateName, st.2 ++ [{ Name := part1 }])
      else (templateName, st.2)
  | _ => st

/-- The header loop of `fetchAndParseCsv`: the derived `templateName` and `params`. -/
def headerScan (columns : List String) : String × List connectlyTemplateMessageParametersDTO :=
  columns.foldl headerStep ("", [])

/-! ## CSV reader and `fetchAndParseCsv` -/

/-- Go `error` values, with `io.EOF` told apart from all the others. -/
inductive GoError where
  | EOF
  | other (msg : String)
  deriving DecidableEq, Repr

/-- A `csv.Reader` seen through its successive `Read` calls: each entry is
the record or the error returned by one call; once the list is used up,
`Read` returns `io.EOF`. -/
abbrev CsvReader := List (Except GoError (List String))

/-- The inner loop `for i, value := range row` of `fetchAndParseCsv`, from
index `i` on; `none` is the run-time panic of `columns[i]` out of range. -/
def processRow (columns : List String) :
    Nat → List String → connectlyTemplateMessageDTO → Option connectlyTemplateMessageDTO
  | _, [], message => some message
  | i, value :: rest, message =>
    match columns[i]? with
    | none => none
    | some columnName => processRow columns (i + 1) rest (processColumnValue message columnName value)

/-- The body of the row loop for one record: a fresh copy of `params`, a new
message, then one `processColumnValue` per cell. -/
def mapRow (columns : List String) (templateName : String)
    (params : List connectlyTemplateMessageParametersDTO) (row : List String) :
    Option connectlyTemplateMessageDTO :=
  processRow columns 0 row { TemplateName := templateName, TemplateParameters := params }

/-- The row loop of `fetchAndParseCsv`; the result is the returned pair
`(messages, err)`, `none` being a panic. -/
def rowLoop (columns : List String) (templateName : String)
    (params : List connectlyTemplateMessageParametersDTO) :
    CsvReader → List connectlyTemplateMessageDTO →
      Option (List connectlyTemplateMessageDTO × Option GoError)
  | [], messages => some (messages, none)
  | Except.error e :: _, messages =>
    if e = GoError.EOF then some (messages, none) else some ([], some e)
  | Except.ok row :: rest, messages =>
    match mapRow columns templateName params row with
    | none => none
    | some message => rowLoop columns templateName params rest (messages ++ [message])

/-- Counterpart of `fetchAndParseCsv`. The argument is the outcome of locating and
opening the source (`url.Parse`, `client.Get`, `os.Open`): an error, or the
reader over the opened source. -/
def fetchAndParseCsv (source : Except GoError CsvReader) :
    Option (List connectlyTemplateMessageDTO × Option GoError) :=
  match source with
  | Except.error e => some ([], some e)
  | Except.ok [] => some ([], some GoError.EOF)
  | Except.ok (Except.error e :: _) => some ([], some e)
  | Except.ok (Except.ok columns :: rest) =>
    rowLoop columns (headerScan columns).1 (headerScan columns).2 rest []

/-- A reader over a well-formed file: the header record, the data records,
then end of file. -/
def csvOf (columns : List String) (rows : List (List String)) : Except GoError CsvReader :=
  Except.ok (Except.ok columns :: rows.map Except.ok)

/-- The first parameter of a message with the given name. -/
def findParameter (name : String) (message : connectlyTemplateMessageDTO) :
    Option connectlyTemplateMessageParametersDTO :=
  message.TemplateParameters.find? (fun p => p.Name = name)

/-! ## Vocabulary of the statements -/

/-- The suffix of a column name that splits on `:` into exactly two parts, the
second of which is not `filename`. -/
def qualifyingSuffix (column : String) : Option String :=
  match stringsSplit column ':' with
  | [_, part1] => if part1 = "filename" then none else some part1
  | _ => none

/-- The shape of a header column, for headers built from a template name. -/
inductive HeaderColumn where
  | sender
  | number
  | language
  | campaignName
  | param (p : String)
  | fileName (p : String)
  deriving DecidableEq, Repr

/-- The column name of a header column for the template name `T`: a fixed
name, `T:p`, or `T:p:filename`. -/
def HeaderColumn.name (T : String) : HeaderColumn → String
  | HeaderColumn.sender => "sender"
  | HeaderColumn.number => "number"
  | HeaderColumn.language => "language"
  | HeaderColumn.campaignName => "campaign_name"
  | HeaderColumn.param p => T ++ ":" ++ p
  | HeaderColumn.fileName p => T ++ ":" ++ p ++ ":filename"

/-- The parameter names `p` of the two-part columns `T:p` of a header, in
header order. -/
def paramNames : List HeaderColumn → List String
  | [] => []
  | HeaderColumn.param p :: rest => p :: paramNames rest
  | _ :: rest => paramNames rest

/-- The cells of a row paired with their column names, folded through
`processColumnValue`: what `processRow` computes when no index is out of range. -/
def foldCells (message : connectlyTemplateMessageDTO) (cells : List (String × String)) :
    connectlyTemplateMessageDTO :=
  cells.foldl (fun m cv => processColumnValue m cv.1 cv.2) message

/-- The cell paired with the last column of the given shape; `dflt` when
there is no such column. -/
def lastCellOr (column : HeaderColumn) (cells : List (HeaderColumn × String)) (dflt : String) :
    String :=
  match (cells.filter (fun cv => cv.1 = column)).getLast? with
  | some cv => cv.2
  | none => dflt

/-- The cell of a row under the last header column of the given shape; the
empty string when the header has no such column. -/
def cellUnder (column : HeaderColumn) (hdr : List HeaderColumn) (row : List String) : String :=
  lastCellOr column (hdr.zip row) ""

/-- The parameters a row should produce: one per two-part column `T:p`, in
header order, named `p`, with `Value` the cell when it is non-empty and absent
when it is empty, and no `FileName`. -/
def expectedParameters : List (HeaderColumn × String) → List connectlyTemplateMessageParametersDTO
  | [] => []
  | (HeaderColumn.param p, v) :: rest =>
    { Name := p, Value := if v = "" then none else some v } :: expectedParameters rest
  | _ :: rest => expectedParameters rest

/-- The message a row should produce under a header of template name `T`. -/
def expectedMessage (T : String) (hdr : List HeaderColumn) (row : List String) :
    connectlyTemplateMessageDTO :=
  { Sender := cellUnder HeaderColumn.sender hdr row
    Number := cellUnder HeaderColumn.number hdr row
    Language := cellUnder HeaderColumn.language hdr row
    TemplateName := if paramNames hdr = [] then "" else T
    TemplateParameters := expectedParameters (hdr.zip row)
    CampaignName := cellUnder HeaderColumn.campaignName hdr row }

/-! ## The row loop over an explicit heap

In Go a slice is a reference to a backing array. To state that the rows do
not interfere, the row loop is modelled a second time with the backing arrays
made explicit: a heap of arrays, slices being addresses into it. Strings are
immutable and every `&value` is a fresh cell that is never written again, so
the pointer fields remain `Option String`. -/

/-- The backing arrays of the parameter slices, by address. -/
abbrev Heap := List (List connectlyTemplateMessageParametersDTO)

/-- A `connectlyTemplateMessageDTO` whose `TemplateParameters` slice is the
address of its backing array. -/
structure MessageRef where
  Sender : String := ""
  Number : String := ""
  Language : String := ""
  TemplateName : String := ""
  TemplateParameters : Nat
  CampaignName : String := ""
  deriving DecidableEq, Repr

/-- In-place update of the array at an address. -/
def Heap.write (heap : Heap) (addr : Nat)
    (f : List connectlyTemplateMessageParametersDTO → List connectlyTemplateMessageParametersDTO) :
    Heap :=
  heap.set addr (f (heap[addr]?.getD []))

/-- The message a reference denotes in a heap. -/
def deref (heap : Heap) (m : MessageRef) : connectlyTemplateMessageDTO :=
  { Sender := m.Sender, Number := m.Number, Language := m.Language,
    TemplateName := m.TemplateName,
    TemplateParameters := heap[m.TemplateParameters]?.getD [],
    CampaignName := m.CampaignName }

/-- Heap form of `handleDynamicColumns`: the writes
`message.TemplateParameters[i].Value = &value` go to the backing array. -/
def handleDynamicColumnsRef (heap : Heap) (message : MessageRef) (columnName value : String) :
    Heap × MessageRef :=
  match stringsSplit columnName ':' with
  | [_, suffix] =>
    if suffix = "filename" then
      (heap.write message.TemplateParameters (attachFileName value), message)
    else
      (heap.write message.TemplateParameters (assignValue suffix value), message)
  | _ => (heap, message)

/-- Heap form of `processColumnValue`. -/
def processColumnValueRef (heap : Heap) (message : MessageRef) (columnName value : String) :
    Heap × MessageRef :=
  if columnName = "sender" then (heap, { message with Sender := value })
  else if columnName = "number" then (heap, { message with Number := value })
  else if columnName = "language" then (heap, { message with Language := value })
  else if columnName = "campaign_name" then (heap, { message with CampaignName := value })
  else handleDynamicColumnsRef heap message columnName value

/-- Heap form of `processRow`. -/
def processRowRef (columns : List String) :
    Nat → List String → Heap × MessageRef → Option (Heap × MessageRef)
  | _, [], st => some st
  | i, value :: rest, st =>
    match columns[i]? with
    | none => none
    | some columnName =>
      processRowRef columns (i + 1) rest (processColumnValueRef st.1 st.2 columnName value)

/-- Heap form of `mapRow`: `make` allocates a new array at the next free
address, `copy` fills it with the elements of the array of `params`, and the
new message refers to the new array. -/
def mapRowRef (columns : List String) (templateName : String) (params : Nat) (heap : Heap)
    (row : List String) : Option (Heap × MessageRef) :=
  processRowRef columns 0 row
    (heap ++ [heap[params]?.getD []],
      { TemplateName := templateName, TemplateParameters := heap.length })

/-- Heap form of `rowLoop`. -/
def rowLoopRef (columns : List String) (templateName : String) (params : Nat) :
    CsvReader → Heap × List MessageRef → Option (Heap × List MessageRef × Option GoError)
  | [], st => some (st.1, st.2, none)
  | Except.error e :: _, st =>
    if e = GoError.EOF then some (st.1, st.2, none) else some (st.1, [], some e)
  | Except.ok row :: rest, st =>
    match mapRowRef columns templateName params st.1 row with
    | none => none
    | some (heap, message) =>
      rowLoopRef columns templateName params rest (heap, st.2 ++ [message])

/-- Heap form of `fetchAndParseCsv`: the header scan leaves the array of
`params` at address 0. -/
def fetchAndParseCsvRef (source : Except GoError CsvReader) :
    Option (Heap × List MessageRef × Option GoError) :=
  match source with
  | Except.error e => some ([], [], some e)
  | Except.ok [] => some ([], [], some GoError.EOF)
  | Except.ok (Except.error e :: _) => some ([], [], some e)
  | Except.ok (Except.ok columns :: rest) =>
    rowLoopRef columns (headerScan columns).1 0 rest ([(headerScan columns).2], [])

/-- The messages a heap-level result denotes. -/
def readMessages (result : Heap × List MessageRef × Option GoError) :
    List connectlyTemplateMessageDTO :=
  result.2.1.map (deref result.1)

/-! ## Dispatch pipeline of `fetchCSVAndSendAPIRequests`

The goroutines (one producer, `workerNum` workers, the closer of
`responseChan`, and the calling goroutine as collector) are modelled as a
transition system: a state holds where each goroutine stands and what the two
channels contain, and an action is one atomic channel operation of one
goroutine. An interleaving is a list of actions. The channels are buffered
channels of capacity `batchSize`, which is what `make(chan T, batchSize)`
gives for `batchSize >= 1`. Between receiving a message and its next channel
operation a worker touches no shared state, so `json.Marshal` and
`sendAPIRequest` are folded into the receive action; every call of
`sendAPIRequest` is taken to return, with the outcome recorded in the job. -/

/-- Counterpart of `apiResponse`. -/
structure apiResponse where
  Id : String
  deriving DecidableEq, Repr

/-- Counterpart of `BatchSendCampaignResponse`. -/
structure BatchSendCampaignResponse where
  ApiResponses : List apiResponse := []
  deriving DecidableEq, Repr

/-- What happens to one message inside a worker: `json.Marshal` fails,
`sendAPIRequest` returns an error (transport error or a status other than
201), or `sendAPIRequest` returns a response. -/
inductive SendOutcome where
  | marshalError
  | sendError
  | created (resp : apiResponse)
  deriving DecidableEq, Repr

/-- A parsed message together with what its dispatch will result in. -/
structure Job where
  message : connectlyTemplateMessageDTO
  outcome : SendOutcome
  deriving DecidableEq, Repr

/-- Where a worker goroutine stands: at `range messagesChan`, at
`responseChan <- resp`, or past its loop (`wg.Done()` has run). -/
inductive Worker where
  | receiving
  | sending (resp : apiResponse)
  | done
  deriving DecidableEq, Repr

/-- State of one invocation of `fetchCSVAndSendAPIRequests`: the messages the
producer has still to send, the buffer of `messagesChan` and whether it is
closed, the workers, the buffer of `responseChan` and whether it is closed,
`batchResponse.ApiResponses` as collected so far, whether the function has
returned, and the number of `sendAPIRequest` invocations so far. -/
structure Pipeline where
  pending : List Job
  messagesChan : List Job
  messagesClosed : Bool
  workers : List Worker
  responseChan : List apiResponse
  responseClosed : Bool
  collected : List apiResponse
  returned : Bool
  sendCalls : Nat
  deriving DecidableEq, Repr

/-- One atomic operation of one goroutine. -/
inductive Action where
  | producerSend
  | producerClose
  | workerReceive (i : Nat)
  | workerPush (i : Nat)
  | workerExit (i : Nat)
  | closerClose
  | collectorReceive
  | collectorReturn
  deriving DecidableEq, Repr

/-- The worker after it has received a job and run `json.Marshal` and
`sendAPIRequest` on it: on success it goes on to `responseChan <- resp`,
otherwise back to `range messagesChan`. -/
def Worker.afterJob (job : Job) : Worker :=
  match job.outcome with
  | SendOutcome.created resp => Worker.sending resp
  | _ => Worker.receiving

/-- The number of `sendAPIRequest` invocations a job causes: none when
`json.Marshal` fails (`continue`), one otherwise. -/
def Job.sendCalls (job : Job) : Nat :=
  match job.outcome with
  | SendOutcome.marshalError => 0
  | _ => 1

/-- The effect of an action in a state, `none` when the goroutine cannot
take that step there (it is blocked, or it is elsewhere in its code). -/
def step (batchSize : Nat) : Action → Pipeline → Option Pipeline
  | Action.producerSend, s =>
    match s.pending with
    | job :: rest =>
      if s.messagesChan.length < batchSize then
        some { s with pending := rest, messagesChan := s.messagesChan ++ [job] }
      else none
    | [] => none
  | Action.producerClose, s =>
    if s.pending = [] ∧ s.messagesClosed = false then some { s with messagesClosed := true }
    else none
  | Action.workerReceive i, s =>
    match s.workers[i]?, s.messagesChan with
    | some Worker.receiving, job :: rest =>
      some { s with messagesChan := rest, workers := s.workers.set i (Worker.afterJob job),
                    sendCalls := s.sendCalls + job.sendCalls }
    | _, _ => none
  | Action.workerExit i, s =>
    match s.workers[i]? with
    | some Worker.receiving =>
      if s.messagesChan = [] ∧ s.messagesClosed = true then
        some { s with workers := s.workers.set i Worker.done }
      else none
    | _ => none
  | Action.workerPush i, s =>
    match s.workers[i]? with
    | some (Worker.sending resp) =>
      if s.responseChan.length < batchSize then
        some { s with responseChan := s.responseChan ++ [resp],
                      workers := s.workers.set i Worker.receiving }
      else none
    | _ => none
  | Action.closerClose, s =>
    if (∀ w ∈ s.workers, w = Worker.done) ∧ s.responseClosed = false then
      some { s with responseClosed := true }
    else none
  | Action.collectorReceive, s =>
    if s.returned = true then none
    else
      match s.responseChan with
      | resp :: rest => some { s with responseChan := rest, collected := s.collected ++ [resp] }
      | [] => none
  | Action.collectorReturn, s =>
    if s.returned = false ∧ s.responseChan = [] ∧ s.responseClosed = true then
      some { s with returned := true }
    else none

/-- An interleaving: the actions taken one after the other; `none` when one
of them is not possible where it stands. -/
def run (batchSize : Nat) : List Action → Pipeline → Option Pipeline
  | [], s => some s
  | a :: rest, s =>
    match step batchSize a s with
    | none => none
    | some s2 => run batchSize rest s2

/-- The state once the channels are made and all goroutines are started. -/
def Pipeline.initial (workerNum : Nat) (jobs : List Job) : Pipeline :=
  { pending := jobs, messagesChan := [], messagesClosed := false,
    workers := List.replicate workerNum Worker.receiving,
    responseChan := [], responseClosed := false, collected := [], returned := false,
    sendCalls := 0 }

/-- The messages with the outcome of their dispatch attached, the outcome of
the message at position `i` being `oracle i`. -/
def jobsFrom (oracle : Nat → SendOutcome) : Nat → List connectlyTemplateMessageDTO → List Job
  | _, [] => []
  | i, m :: ms => { message := m, outcome := oracle i } :: jobsFrom oracle (i + 1) ms

/-- The start of `fetchCSVAndSendAPIRequests`:
`messages, _ := fetchAndParseCsv(csvURL, httpClient)` drops the error, then the
pipeline is set up over `messages`. `none` is a panic inside the parser. -/
def fetchCSVAndSendAPIRequests (workerNum : Nat) (source : Except GoError CsvReader)
    (oracle : Nat → SendOutcome) : Option Pipeline :=
  match fetchAndParseCsv source with
  | none => none
  | some (messages, _) => some (Pipeline.initial workerNum (jobsFrom oracle 0 messages))

/-- The pair `(batchResponse, nil)` that `fetchCSVAndSendAPIRequests` returns,
once the collector loop has ended; the error is the literal `nil` of the
`return` statement. -/
def Pipeline.result (s : Pipeline) : Option (BatchSendCampaignResponse × Option GoError) :=
  if s.returned = true then some ({ ApiResponses := s.collected }, none) else none

/-- Counterpart of the part of `BatchSendCampaign` after the call of
`fetchCSVAndSendAPIRequests`: the empty response when the error is not `nil`,
otherwise the response received; the flag tells whether
`process finished successfully` was printed. -/
def BatchSendCampaign (ret : BatchSendCampaignResponse × Option GoError) :
    BatchSendCampaignResponse × Bool :=
  match ret.2 with
  | some _ => ({}, false)
  | none => (ret.1, true)

/-- The responses of the jobs whose dispatch succeeds, in job order. -/
def successes : List Job → List apiResponse
  | [] => []
  | job :: rest =>
    match job.outcome with
    | SendOutcome.created resp => resp :: successes rest
    | _ => successes rest

/-- The number of jobs whose dispatch fails. -/
def failures : List Job → Nat
  | [] => 0
  | job :: rest =>
    match job.outcome with
    | SendOutcome.created _ => failures rest
    | _ => failures rest + 1

/-- Sum of a weight over the workers. -/
def sumOver (f : Worker → Nat) : List Worker → Nat
  | [] => 0
  | w :: ws => f w + sumOver f ws

/-- Weight of a worker in the termination measure. -/
def Worker.weight : Worker → Nat
  | Worker.receiving => 1
  | Worker.sending _ => 3
  | Worker.done => 0

/-- How often a worker holds the response `r`, waiting to push it. -/
def Worker.holds (r : apiResponse) : Worker → Nat
  | Worker.sending resp => if resp = r then 1 else 0
  | _ => 0

/-- Termination measure: an upper bound on the number of actions still possible. -/
def Pipeline.measure (s : Pipeline) : Nat :=
  4 * s.pending.length + (if s.messagesClosed = true then 0 else 1)
    + 3 * s.messagesChan.length + sumOver Worker.weight s.workers
    + s.responseChan.length + (if s.responseClosed = true then 0 else 1)
    + (if s.returned = true then 0 else 1)

/-- Invariant of the pipeline started on `jobs` with `workerNum` workers. -/
def Pipeline.Inv (workerNum : Nat) (jobs : List Job) (s : Pipeline) : Prop :=
  (∀ r, (successes s.pending).count r + (successes s.messagesChan).count r
      + sumOver (Worker.holds r) s.workers + s.responseChan.count r + s.collected.count r
      = (successes jobs).count r) ∧
    (s.messagesClosed = true → s.pending = []) ∧
    ((∃ w ∈ s.workers, w = Worker.done) → s.messagesChan = [] ∧ s.messagesClosed = true) ∧
    (s.responseClosed = true → ∀ w ∈ s.workers, w = Worker.done) ∧
    s.workers.length = workerNum ∧
    (s.returned = true → s.responseChan = [] ∧ s.responseClosed = true) ∧
    s.sendCalls + s.pending.length + s.messagesChan.length ≤ jobs.length

/-! # Theorems -/

/-! ## `strings.Split` -/

theorem length_splitChars (sep : Char) (l : List Char) :
    (splitChars sep l).length = l.count sep + 1 := by
  induction l with
  | nil => simp [splitChars]
  | cons c cs ih =>
    by_cases h : c = sep
    · subst h
      simp [splitChars, ih]
    · have hne : (c == sep) = false := by simpa using h
      rw [splitChars, if_neg h, List.count_cons, hne]
      cases hs : splitChars sep cs with
      | nil => simp [hs] at ih
      | cons piece pieces => simpa [hs] using ih

theorem splitChars_of_not_mem (sep : Char) (l : List Char) (h : sep ∉ l) :
    splitChars sep l = [l] := by
  induction l with
  | nil => rfl
  | cons c cs ih =>
    have hc : ¬ c = sep := fun e => h (by simp [e])
    have hcs : sep ∉ cs := fun e => h (by simp [e])
    rw [splitChars, if_neg hc, ih hcs]

theorem splitChars_append_sep (sep : Char) (a b : List Char) (h : sep ∉ a) :
    splitChars sep (a ++ sep :: b) = a :: splitChars sep b := by
  induction a with
  | nil => simp [splitChars]
  | cons c cs ih =>
    have hc : ¬ c = sep := fun e => h (by simp [e])
    have hcs : sep ∉ cs := fun e => h (by simp [e])
    rw [List.cons_append, splitChars, if_neg hc, ih hcs]

theorem stringsSplit_two (T p : String) (hT : ':' ∉ T.data) (hp : ':' ∉ p.data) :
    stringsSplit (T ++ ":" ++ p) ':' = [T, p] := by
  have hd : (T ++ ":" ++ p).data = T.data ++ ':' :: p.data := by
    simp [String.data_append]
  simp [stringsSplit, hd, splitChars_append_sep _ _ _ hT, splitChars_of_not_mem _ _ hp]

theorem length_stringsSplit_three (T p : String) :
    3 ≤ (stringsSplit (T ++ ":" ++ p ++ ":filename") ':').length := by
  have hd : (T ++ ":" ++ p ++ ":filename").data
      = T.data ++ ':' :: (p.data ++ ':' :: "filename".data) := by
    simp [String.data_append]
  simp only [stringsSplit, List.length_map, length_splitChars, hd, List.count_append,
    List.count_cons_self]
  omega

theorem handleDynamicColumns_of_length_ne (message : connectlyTemplateMessageDTO)
    (columnName value : String) (h : (stringsSplit columnName ':').length ≠ 2) :
    handleDynamicColumns message columnName value = message := by
  unfold handleDynamicColumns
  split
  · rename_i heq
    simp [heq] at h
  · rfl

theorem headerStep_of_length_ne (st : String × List connectlyTemplateMessageParametersDTO)
    (element : String) (h : (stringsSplit element ':').length ≠ 2) :
    headerStep st element = st := by
  unfold headerStep
  split
  · rename_i heq
    simp [heq] at h
  · rfl

/-! ## Header scan -/

theorem headerStep_param (T p tn : String) (acc : List connectlyTemplateMessageParametersDTO)
    (hT : T ≠ "") (hTc : ':' ∉ T.data) (hp : ':' ∉ p.data) (hpf : p ≠ "filename")
    (htn : tn = "" ∨ tn = T) :
    headerStep (tn, acc) (T ++ ":" ++ p) = (T, acc ++ [{ Name := p }]) := by
  unfold headerStep
  rw [stringsSplit_two T p hTc hp]
  rcases htn with h | h <;> subst h <;> simp [hpf, hT]

theorem headerStep_name_of_not_param (T : String) (c : HeaderColumn)
    (st : String × List connectlyTemplateMessageParametersDTO)
    (hc : ∀ p, c ≠ HeaderColumn.param p) :
    headerStep st (c.name T) = st := by
  cases c with
  | param p => exact absurd rfl (hc p)
  | fileName p =>
    apply headerStep_of_length_ne
    have := length_stringsSplit_three T p
    simp only [HeaderColumn.name]
    omega
  | sender => exact headerStep_of_length_ne st "sender" (by decide)
  | number => exact headerStep_of_length_ne st "number" (by decide)
  | language => exact headerStep_of_length_ne st "language" (by decide)
  | campaignName => exact headerStep_of_length_ne st "campaign_name" (by decide)

theorem foldl_headerStep_names (T : String) (hT : T ≠ "") (hTc : ':' ∉ T.data)
    (hdr : List HeaderColumn)
    (hp : ∀ p, HeaderColumn.param p ∈ hdr → ':' ∉ p.data ∧ p ≠ "filename")
    (tn : String) (acc : List connectlyTemplateMessageParametersDTO) (htn : tn = "" ∨ tn = T) :
    (hdr.map (HeaderColumn.name T)).foldl headerStep (tn, acc)
      = (if paramNames hdr = [] then tn else T,
          acc ++ (paramNames hdr).map (fun p => { Name := p })) := by
  induction hdr generalizing tn acc with
  | nil => simp [paramNames]
  | cons c rest ih =>
    have hrest : ∀ p, HeaderColumn.param p ∈ rest → ':' ∉ p.data ∧ p ≠ "filename" :=
      fun p h => hp p (List.mem_cons_of_mem _ h)
    rw [List.map_cons, List.foldl_cons]
    by_cases hc : ∃ p, c = HeaderColumn.param p
    · obtain ⟨p, rfl⟩ := hc
      have hpp := hp p (List.mem_cons_self _ _)
      have hstep : headerStep (tn, acc) (HeaderColumn.name T (HeaderColumn.param p))
          = (T, acc ++ [{ Name := p }]) :=
        headerStep_param T p tn acc hT hTc hpp.1 hpp.2 htn
      rw [hstep, ih hrest T _ (Or.inr rfl)]
      simp [paramNames]
    · have hc2 : ∀ p, c ≠ HeaderColumn.param p := fun p h => hc ⟨p, h⟩
      rw [headerStep_name_of_not_param T c _ hc2, ih hrest tn acc htn]
      cases c <;> first | rfl | exact absurd rfl (hc2 _)

theorem headerScan_of_header (T : String) (hdr : List HeaderColumn)
    (hT : T ≠ "") (hTc : ':' ∉ T.data)
    (hp : ∀ p, HeaderColumn.param p ∈ hdr → ':' ∉ p.data ∧ p ≠ "filename") :
    headerScan (hdr.map (HeaderColumn.name T))
      = (if paramNames hdr = [] then "" else T,
          (paramNames hdr).map (fun p => { Name := p })) := by
  have h := foldl_headerStep_names T hT hTc hdr hp "" [] (Or.inl rfl)
  simpa [headerScan] using h

/-- C2 (schema extraction): for a header made of fixed columns, two-part
columns `T:p` (non-empty `T`, no `:` inside `T` or `p`, `p` not `filename`) and
three-part columns `T:p:filename`, the header scan yields `templateName = T`
(the empty name when the header has no two-part column at all) and exactly the
parameters `p` in header order; the three-part columns contribute nothing. -/
theorem headerScan_schema (T : String) (hdr : List HeaderColumn)
    (hT : T ≠ "") (hTc : ':' ∉ T.data)
    (hp : ∀ p, HeaderColumn.param p ∈ hdr → ':' ∉ p.data ∧ p ≠ "filename") :
    headerScan (hdr.map (HeaderColumn.name T))
      = (if paramNames hdr = [] then "" else T,
          (paramNames hdr).map (fun p => { Name := p })) :=
  headerScan_of_header T hdr hT hTc hp

/-- Witness of C2: the header of the specification. -/
theorem headerScan_schema_witness :
    headerScan ["sender", "number", "templateA:body_text", "templateA:header_document",
        "templateA:header_document:filename"]
      = ("templateA", [{ Name := "body_text" }, { Name := "header_document" }]) :=
  headerScan_schema "templateA"
    [HeaderColumn.sender, HeaderColumn.number, HeaderColumn.param "body_text",
      HeaderColumn.param "header_document", HeaderColumn.fileName "header_document"]
    (by decide) (by decide) (by
      intro p hmem
      simp only [List.mem_cons, HeaderColumn.param.injEq, List.mem_singleton, reduceCtorEq,
        false_or, or_false, List.not_mem_nil] at hmem
      rcases hmem with h | h <;> subst h <;> decide)

theorem headerStep_params (st : String × List connectlyTemplateMessageParametersDTO)
    (c : String) :
    (headerStep st c).2 = st.2 ∨
      ∃ s, qualifyingSuffix c = some s ∧ (headerStep st c).2 = st.2 ++ [{ Name := s }] := by
  unfold headerStep qualifyingSuffix
  split
  · rename_i part0 part1 heq
    by_cases hf : part1 = "filename"
    · simp [hf]
    · by_cases h0 : part0 = (if st.1 = "" then part0 else st.1)
      · right
        refine ⟨part1, by simp [hf], ?_⟩
        simp only [if_neg hf]
        rw [if_pos h0]
      · left
        simp only [if_neg hf]
        rw [if_neg h0]
  · left; rfl

theorem foldl_headerStep_sublist (cols : List String)
    (st : String × List connectlyTemplateMessageParametersDTO) :
    ∃ L : List String, L.Sublist (cols.filterMap qualifyingSuffix) ∧
      (cols.foldl headerStep st).2.map (fun q => q.Name) = st.2.map (fun q => q.Name) ++ L := by
  induction cols generalizing st with
  | nil => exact ⟨[], by simp⟩
  | cons c rest ih =>
    obtain ⟨L, hL, hEq⟩ := ih (headerStep st c)
    rw [List.foldl_cons, hEq]
    rcases headerStep_params st c with h | ⟨s, hs, h⟩
    · refine ⟨L, ?_, by rw [h]⟩
      rw [List.filterMap_cons]
      cases hq : qualifyingSuffix c with
      | none => simpa using hL
      | some s => simpa using hL.cons s
    · refine ⟨s :: L, ?_, by rw [h]; simp⟩
      rw [List.filterMap_cons, hs]
      simpa using hL.cons₂ s

/-- C6 (amended): the header scan performs no deduplication, it appends one
parameter per contributing column; the derived parameter names are pairwise
distinct whenever the suffixes of the header's two-part, non-`filename`
columns are pairwise distinct. -/
theorem headerScan_names_nodup (columns : List String)
    (h : (columns.filterMap qualifyingSuffix).Nodup) :
    ((headerScan columns).2.map (fun q => q.Name)).Nodup := by
  obtain ⟨L, hL, hEq⟩ := foldl_headerStep_sublist columns ("", [])
  have hEq2 : (headerScan columns).2.map (fun q => q.Name) = L := by
    simpa [headerScan] using hEq
  rw [hEq2]
  exact h.sublist hL

/-- Witness of C6 (amended): a header with two distinct parameter columns. -/
theorem headerScan_names_nodup_witness :
    ((headerScan ["sender", "t:a", "t:b"]).2.map (fun q => q.Name)).Nodup :=
  headerScan_names_nodup ["sender", "t:a", "t:b"] (by decide)

/-- C6 (counterexample): the header `["t:a", "t:a"]` yields two parameters
named `a`, so the derived names are not pairwise distinct. -/
theorem headerScan_duplicate_names :
    (headerScan ["t:a", "t:a"]).2 = [{ Name := "a" }, { Name := "a" }] ∧
      ¬ ((headerScan ["t:a", "t:a"]).2.map (fun q => q.Name)).Nodup := by
  decide

/-- C10 (failing input): on the header `[":a", "t:b"]` the first qualifying
column `:a` has the empty prefix, yet the derived template name is `t`, and the
parameter `a` comes from a column whose prefix is not `t`. With a non-empty
first prefix, as in `["x:a", "y:b", "x:c"]`, the first prefix is kept and only
its columns contribute. -/
theorem headerScan_empty_first_part :
    stringsSplit ":a" ':' = ["", "a"] ∧
      headerScan [":a", "t:b"] = ("t", [{ Name := "a" }, { Name := "b" }]) ∧
      headerScan ["x:a", "y:b", "x:c"] = ("x", [{ Name := "a" }, { Name := "c" }]) := by
  decide

/-! ## Row mapper -/

theorem attachFileName_names (value : String) (ps : List connectlyTemplateMessageParametersDTO) :
    (attachFileName value ps).map (fun q => q.Name) = ps.map (fun q => q.Name) := by
  induction ps with
  | nil => rfl
  | cons p ps ih =>
    unfold attachFileName
    by_cases h : p.Name = "header_document"
    · by_cases hv : value = "" <;> simp [h, hv]
    · simp [h, ih]

theorem assignValue_names (name value : String) (ps : List connectlyTemplateMessageParametersDTO) :
    (assignValue name value ps).map (fun q => q.Name) = ps.map (fun q => q.Name) := by
  induction ps with
  | nil => rfl
  | cons p ps ih =>
    unfold assignValue
    by_cases h : p.Name = name
    · by_cases hv : value = "" <;> simp [h, hv]
    · simp [h, ih]

theorem attachFileName_empty (ps : List connectlyTemplateMessageParametersDTO) :
    attachFileName "" ps = ps := by
  induction ps with
  | nil => rfl
  | cons p ps ih =>
    unfold attachFileName
    by_cases h : p.Name = "header_document" <;> simp [h, ih]

theorem assignValue_empty (name : String) (ps : List connectlyTemplateMessageParametersDTO) :
    assignValue name "" ps = ps := by
  induction ps with
  | nil => rfl
  | cons p ps ih =>
    unfold assignValue
    by_cases h : p.Name = name <;> simp [h, ih]

theorem handleDynamicColumns_names (message : connectlyTemplateMessageDTO)
    (columnName value : String) :
    (handleDynamicColumns message columnName value).TemplateParameters.map (fun q => q.Name)
      = message.TemplateParameters.map (fun q => q.Name) := by
  unfold handleDynamicColumns
  split
  · split
    · exact attachFileName_names _ _
    · exact assignValue_names _ _ _
  · rfl

theorem handleDynamicColumns_templateName (message : connectlyTemplateMessageDTO)
    (columnName value : String) :
    (handleDynamicColumns message columnName value).TemplateName = message.TemplateName := by
  unfold handleDynamicColumns
  split
  · split <;> rfl
  · rfl

theorem processColumnValue_names (message : connectlyTemplateMessageDTO)
    (columnName value : String) :
    (processColumnValue message columnName value).TemplateParameters.map (fun q => q.Name)
      = message.TemplateParameters.map (fun q => q.Name) := by
  unfold processColumnValue
  split_ifs
  · rfl
  · rfl
  · rfl
  · rfl
  · exact handleDynamicColumns_names _ _ _

theorem processRow_eq_foldCells (columns : List String) (i : Nat) (row : List String)
    (message : connectlyTemplateMessageDTO) (h : i + row.length ≤ columns.length) :
    processRow columns i row message
      = some (foldCells message ((columns.drop i).zip row)) := by
  induction row generalizing i message with
  | nil => simp [processRow, foldCells]
  | cons value rest ih =>
    have hi : i < columns.length := by simp at h; omega
    have hdrop : columns.drop i = columns[i] :: columns.drop (i + 1) :=
      List.drop_eq_getElem_cons hi
    rw [processRow, List.getElem?_eq_getElem hi]
    simp only
    rw [ih (i + 1) _ (by simp at h ⊢; omega), hdrop]
    simp only [foldCells, List.zip_cons_cons, List.foldl_cons]

theorem foldCells_names (cells : List (String × String)) (message : connectlyTemplateMessageDTO) :
    (foldCells message cells).TemplateParameters.map (fun q => q.Name)
      = message.TemplateParameters.map (fun q => q.Name) := by
  induction cells generalizing message with
  | nil => rfl
  | cons cv rest ih =>
    simp only [foldCells, List.foldl_cons]
    exact (ih _).trans (processColumnValue_names _ _ _)

theorem rowLoop_ok (columns : List String) (templateName : String)
    (params : List connectlyTemplateMessageParametersDTO) (rows : List (List String))
    (h : ∀ r ∈ rows, r.length ≤ columns.length) (acc : List connectlyTemplateMessageDTO) :
    rowLoop columns templateName params (rows.map Except.ok) acc
      = some (acc ++ rows.map (fun r =>
          foldCells { TemplateName := templateName, TemplateParameters := params }
            (columns.zip r)), none) := by
  induction rows generalizing acc with
  | nil => simp [rowLoop]
  | cons r rest ih =>
    have hr : 0 + r.length ≤ columns.length := by
      have := h r (List.mem_cons_self _ _)
      omega
    rw [List.map_cons, rowLoop, mapRow, processRow_eq_foldCells columns 0 r _ hr]
    simp only
    rw [ih (fun r hr => h r (List.mem_cons_of_mem _ hr))]
    simp

theorem fetchAndParseCsv_ok (columns : List String) (rows : List (List String))
    (h : ∀ r ∈ rows, r.length ≤ columns.length) :
    fetchAndParseCsv (csvOf columns rows)
      = some (rows.map (fun r =>
          foldCells { TemplateName := (headerScan columns).1,
                      TemplateParameters := (headerScan columns).2 }
            (columns.zip r)), none) := by
  simp only [fetchAndParseCsv, csvOf]
  rw [rowLoop_ok columns _ _ rows h []]
  simp

/-- C7 (shape invariant): for every header and all data rows of the header's
length, parsing succeeds with one message per row, and every message has the
parameter names of the schema, in the same order (so also the same number of
parameters); `processColumnValue` and `handleDynamicColumns` never change the
sequence of parameter names, whatever the column name and the cell. -/
theorem shape_invariant (columns : List String) (rows : List (List String))
    (h : ∀ r ∈ rows, r.length = columns.length) :
    (∃ messages, fetchAndParseCsv (csvOf columns rows) = some (messages, none) ∧
        messages.length = rows.length ∧
        ∀ m ∈ messages, m.TemplateParameters.map (fun q => q.Name)
          = (headerScan columns).2.map (fun q => q.Name)) ∧
      (∀ m c v, (processColumnValue m c v).TemplateParameters.map (fun q => q.Name)
          = m.TemplateParameters.map (fun q => q.Name)) ∧
      (∀ m c v, (handleDynamicColumns m c v).TemplateParameters.map (fun q => q.Name)
          = m.TemplateParameters.map (fun q => q.Name)) := by
  refine ⟨⟨_, fetchAndParseCsv_ok columns rows (fun r hr => (h r hr).le), by simp, ?_⟩,
    processColumnValue_names, handleDynamicColumns_names⟩
  intro m hm
  obtain ⟨r, _, rfl⟩ := List.mem_map.1 hm
  exact foldCells_names _ _

/-- Witness of C7: the header and the two rows of the end-to-end scenario. -/
theorem shape_invariant_witness :
    (∃ messages, fetchAndParseCsv (csvOf
          ["sender", "number", "language", "campaign_name", "promo:body_text"]
          [["a", "1", "en", "c1", "hi"], ["a", "2", "en", "c1", ""]]) = some (messages, none) ∧
        messages.length = 2 ∧
        ∀ m ∈ messages, m.TemplateParameters.map (fun q => q.Name) = ["body_text"]) ∧
      (∀ m c v, (processColumnValue m c v).TemplateParameters.map (fun q => q.Name)
          = m.TemplateParameters.map (fun q => q.Name)) ∧
      (∀ m c v, (handleDynamicColumns m c v).TemplateParameters.map (fun q => q.Name)
          = m.TemplateParameters.map (fun q => q.Name)) :=
  shape_invariant ["sender", "number", "language", "campaign_name", "promo:body_text"]
    [["a", "1", "en", "c1", "hi"], ["a", "2", "en", "c1", ""]] (by decide)

/-- C8 (empty-cell absence law): `handleDynamicColumns` with the empty cell
leaves the message unchanged, for every message and every column name; so an
empty cell never sets a `Value` or `FileName` and never overwrites one, and
`processColumnValue` with the empty cell leaves all parameters unchanged. -/
theorem handleDynamicColumns_empty_cell (message : connectlyTemplateMessageDTO)
    (columnName : String) :
    handleDynamicColumns message columnName "" = message ∧
      (processColumnValue message columnName "").TemplateParameters
        = message.TemplateParameters := by
  have h1 : handleDynamicColumns message columnName "" = message := by
    unfold handleDynamicColumns
    split
    · split
      · rw [attachFileName_empty]
      · rw [assignValue_empty]
    · rfl
  refine ⟨h1, ?_⟩
  unfold processColumnValue
  split_ifs
  · rfl
  · rfl
  · rfl
  · rfl
  · rw [h1]

/-- C3 (counterexample): with the three-part column
`templateA:header_document:filename`, the row whose `header_document` cell is
empty and whose file-name cell is `doc.pdf` gives a message whose
`header_document` parameter has no `FileName`, hence not `doc.pdf`. -/
theorem fileName_three_part_ignored :
    ∃ m, fetchAndParseCsv (csvOf
          ["sender", "number", "templateA:body_text", "templateA:header_document",
            "templateA:header_document:filename"]
          [["s", "n", "b", "", "doc.pdf"]]) = some ([m], none) ∧
      findParameter "header_document" m
        = some { Name := "header_document", Value := none, FileName := none } ∧
      findParameter "header_document" m
        ≠ some { Name := "header_document", Value := none, FileName := some "doc.pdf" } :=
  ⟨{ Sender := "s", Number := "n", TemplateName := "templateA",
     TemplateParameters := [{ Name := "body_text", Value := some "b" },
       { Name := "header_document" }] }, by decide, by decide, by decide⟩

/-- C3 (amended): the file name is attached only under a two-part column
`templateA:filename`. With the header `sender, number, templateA:body_text,
templateA:header_document, templateA:filename`, every row whose
`header_document` cell is empty and whose file-name cell is a non-empty `f`
gives a message whose `header_document` parameter has `FileName = f` and no
`Value`; under the three-part column name `templateA:header_document:filename`
the cell is ignored and `FileName` stays absent. -/
theorem fileName_two_part_attached (s n b f : String) (hf : f ≠ "") :
    (∃ m, fetchAndParseCsv (csvOf
          ["sender", "number", "templateA:body_text", "templateA:header_document",
            "templateA:filename"]
          [[s, n, b, "", f]]) = some ([m], none) ∧
        findParameter "header_document" m
          = some { Name := "header_document", Value := none, FileName := some f }) ∧
      (∃ m, fetchAndParseCsv (csvOf
          ["sender", "number", "templateA:body_text", "templateA:header_document",
            "templateA:header_document:filename"]
          [[s, n, b, "", f]]) = some ([m], none) ∧
        findParameter "header_document" m
          = some { Name := "header_document", Value := none, FileName := none }) := by
  have e1 : stringsSplit "templateA:body_text" ':' = ["templateA", "body_text"] := by decide
  have e2 : stringsSplit "templateA:header_document" ':' = ["templateA", "header_document"] := by
    decide
  have e3 : stringsSplit "templateA:filename" ':' = ["templateA", "filename"] := by decide
  have e4 : stringsSplit "templateA:header_document:filename" ':'
      = ["templateA", "header_document", "filename"] := by decide
  have hs1 : headerScan ["sender", "number", "templateA:body_text", "templateA:header_document",
      "templateA:filename"]
      = ("templateA", [{ Name := "body_text" }, { Name := "header_document" }]) := by decide
  have hs2 : headerScan ["sender", "number", "templateA:body_text", "templateA:header_document",
      "templateA:header_document:filename"]
      = ("templateA", [{ Name := "body_text" }, { Name := "header_document" }]) := by decide
  constructor
  · refine ⟨_, fetchAndParseCsv_ok _ _ (by simp), ?_⟩
    simp [hs1, foldCells, processColumnValue, handleDynamicColumns, e1, e2, e3, assignValue,
      attachFileName, findParameter, hf]
    by_cases hb : b = "" <;> simp [hb]
  · refine ⟨_, fetchAndParseCsv_ok _ _ (by simp), ?_⟩
    simp [hs2, foldCells, processColumnValue, handleDynamicColumns, e1, e2, e4, assignValue,
      attachFileName, findParameter]
    by_cases hb : b = "" <;> simp [hb]

/-- Witness of C3 (amended): the file name `doc.pdf`. -/
theorem fileName_two_part_attached_witness :
    (∃ m, fetchAndParseCsv (csvOf
          ["sender", "number", "templateA:body_text", "templateA:header_document",
            "templateA:filename"]
          [["s", "n", "b", "", "doc.pdf"]]) = some ([m], none) ∧
        findParameter "header_document" m
          = some { Name := "header_document", Value := none, FileName := some "doc.pdf" }) ∧
      (∃ m, fetchAndParseCsv (csvOf
          ["sender", "number", "templateA:body_text", "templateA:header_document",
            "templateA:header_document:filename"]
          [["s", "n", "b", "", "doc.pdf"]]) = some ([m], none) ∧
        findParameter "header_document" m
          = some { Name := "header_document", Value := none, FileName := none }) :=
  fileName_two_part_attached "s" "n" "b" "doc.pdf" (by decide)

/-! ## Rows under a header of one template -/

theorem processColumnValue_of_length_ne_one (message : connectlyTemplateMessageDTO)
    (columnName value : String) (h : (stringsSplit columnName ':').length ≠ 1) :
    processColumnValue message columnName value
      = handleDynamicColumns message columnName value := by
  unfold processColumnValue
  split_ifs with h1 h2 h3 h4
  · subst h1; exact absurd (by decide) h
  · subst h2; exact absurd (by decide) h
  · subst h3; exact absurd (by decide) h
  · subst h4; exact absurd (by decide) h
  · rfl

theorem processColumnValue_param (T p : String) (hTc : ':' ∉ T.data) (hp : ':' ∉ p.data)
    (hpf : p ≠ "filename") (message : connectlyTemplateMessageDTO) (value : String) :
    processColumnValue message (T ++ ":" ++ p) value
      = { message with
          TemplateParameters := assignValue p value message.TemplateParameters } := by
  rw [processColumnValue_of_length_ne_one _ _ _ (by rw [stringsSplit_two T p hTc hp]; simp)]
  unfold handleDynamicColumns
  rw [stringsSplit_two T p hTc hp]
  simp [hpf]

theorem processColumnValue_fileName (T p : String)
    (message : connectlyTemplateMessageDTO) (value : String) :
    processColumnValue message (T ++ ":" ++ p ++ ":filename") value = message := by
  have h3 := length_stringsSplit_three T p
  rw [processColumnValue_of_length_ne_one _ _ _ (by omega)]
  exact handleDynamicColumns_of_length_ne _ _ _ (by omega)

theorem assignValue_append (p value : String)
    (A B : List connectlyTemplateMessageParametersDTO) (q : connectlyTemplateMessageParametersDTO)
    (hA : p ∉ A.map (fun r => r.Name)) (hq : q.Name = p) :
    assignValue p value (A ++ q :: B)
      = A ++ (if value ≠ "" then { q with Value := some value } else q) :: B := by
  induction A with
  | nil => simp [assignValue, hq]
  | cons a A ih =>
    have ha : ¬ a.Name = p := fun e => hA (by simp [← e])
    have hA2 : p ∉ A.map (fun r => r.Name) := fun e => hA (by simp [e])
    rw [List.cons_append, assignValue, if_neg ha, ih hA2, List.cons_append]

theorem message_ext (a b : connectlyTemplateMessageDTO) (h1 : a.Sender = b.Sender)
    (h2 : a.Number = b.Number) (h3 : a.Language = b.Language)
    (h4 : a.TemplateName = b.TemplateName) (h5 : a.TemplateParameters = b.TemplateParameters)
    (h6 : a.CampaignName = b.CampaignName) : a = b := by
  cases a; cases b; simp_all

theorem paramNames_map_fst_cons_param (p v : String) (rest : List (HeaderColumn × String)) :
    paramNames (((HeaderColumn.param p, v) :: rest).map Prod.fst)
      = p :: paramNames (rest.map Prod.fst) := rfl

theorem foldl_cells_parameters (T : String) (hTc : ':' ∉ T.data)
    (cells : List (HeaderColumn × String))
    (hp : ∀ p, HeaderColumn.param p ∈ cells.map Prod.fst → ':' ∉ p.data ∧ p ≠ "filename")
    (hnd : (paramNames (cells.map Prod.fst)).Nodup)
    (A : List connectlyTemplateMessageParametersDTO)
    (hA : ∀ p ∈ paramNames (cells.map Prod.fst), p ∉ A.map (fun r => r.Name))
    (m : connectlyTemplateMessageDTO)
    (hm : m.TemplateParameters
      = A ++ (paramNames (cells.map Prod.fst)).map (fun p => { Name := p })) :
    (cells.foldl (fun m cv => processColumnValue m (cv.1.name T) cv.2) m).TemplateParameters
      = A ++ expectedParameters cells := by
  induction cells generalizing A m with
  | nil => simpa [paramNames, expectedParameters] using hm
  | cons cv rest ih =>
    obtain ⟨c, v⟩ := cv
    have hprest : ∀ p, HeaderColumn.param p ∈ rest.map Prod.fst →
        ':' ∉ p.data ∧ p ≠ "filename" :=
      fun p h => hp p (by simp only [List.map_cons, List.mem_cons]; exact Or.inr h)
    rw [List.foldl_cons]
    by_cases hc : ∃ p, c = HeaderColumn.param p
    · obtain ⟨p, rfl⟩ := hc
      have hpp := hp p (by simp)
      rw [paramNames_map_fst_cons_param] at hnd hA hm
      have hpA : p ∉ A.map (fun r => r.Name) := hA p (List.mem_cons_self _ _)
      have hstep : processColumnValue m ((HeaderColumn.param p).name T) v
          = { m with TemplateParameters := assignValue p v m.TemplateParameters } :=
        processColumnValue_param T p hTc hpp.1 hpp.2 m v
      simp only [hstep]
      rw [ih hprest (List.nodup_cons.1 hnd).2
        (A ++ [{ Name := p, Value := if v = "" then none else some v }])]
      · simp [expectedParameters]
      · intro q hq hmem
        simp only [List.map_append, List.map_cons, List.map_nil, List.mem_append,
          List.mem_singleton] at hmem
        rcases hmem with h | h
        · exact hA q (List.mem_cons_of_mem _ hq) h
        · subst h
          exact (List.nodup_cons.1 hnd).1 hq
      · simp only [hm, List.map_cons]
        rw [assignValue_append p v A _ _ hpA rfl]
        by_cases hv : v = "" <;> simp [hv]
    · have hc2 : ∀ p, c ≠ HeaderColumn.param p := fun p h => hc ⟨p, h⟩
      have hnames : paramNames (((c, v) :: rest).map Prod.fst) = paramNames (rest.map Prod.fst) := by
        cases c <;> first | rfl | exact absurd rfl (hc2 _)
      have hexp : expectedParameters ((c, v) :: rest) = expectedParameters rest := by
        cases c <;> first | rfl | exact absurd rfl (hc2 _)
      rw [hnames] at hnd hA hm
      rw [hexp]
      apply ih hprest hnd A hA
      rw [← hm]
      cases c with
      | param p => exact absurd rfl (hc2 p)
      | fileName p => simp only [HeaderColumn.name, processColumnValue_fileName]
      | sender => rfl
      | number => rfl
      | language => rfl
      | campaignName => rfl

theorem lastCellOr_cons (column c : HeaderColumn) (v : String)
    (rest : List (HeaderColumn × String)) (dflt : String) :
    lastCellOr column ((c, v) :: rest) dflt
      = lastCellOr column rest (if c = column then v else dflt) := by
  unfold lastCellOr
  by_cases h : c = column
  · simp only [List.filter_cons, h, decide_True, if_true, List.getLast?_cons]
    cases (rest.filter (fun cv => cv.1 = column)).getLast? <;> rfl
  · simp [List.filter_cons, h]

theorem handleDynamicColumns_fields (m : connectlyTemplateMessageDTO) (c v : String) :
    (handleDynamicColumns m c v).Sender = m.Sender ∧
      (handleDynamicColumns m c v).Number = m.Number ∧
      (handleDynamicColumns m c v).Language = m.Language ∧
      (handleDynamicColumns m c v).CampaignName = m.CampaignName ∧
      (handleDynamicColumns m c v).TemplateName = m.TemplateName := by
  unfold handleDynamicColumns
  split
  · split <;> simp
  · simp

theorem name_ne_of_colon (T p rest s : String) (hs : ':' ∉ s.data) :
    T ++ ":" ++ p ++ rest ≠ s := by
  intro h
  apply hs
  rw [← h]
  simp [String.data_append]

theorem processColumnValue_name_fields (T : String) (c : HeaderColumn) (v : String)
    (m : connectlyTemplateMessageDTO) :
    (processColumnValue m (c.name T) v).Sender
        = (if c = HeaderColumn.sender then v else m.Sender) ∧
      (processColumnValue m (c.name T) v).Number
        = (if c = HeaderColumn.number then v else m.Number) ∧
      (processColumnValue m (c.name T) v).Language
        = (if c = HeaderColumn.language then v else m.Language) ∧
      (processColumnValue m (c.name T) v).CampaignName
        = (if c = HeaderColumn.campaignName then v else m.CampaignName) ∧
      (processColumnValue m (c.name T) v).TemplateName = m.TemplateName := by
  cases c with
  | sender => simp [processColumnValue, HeaderColumn.name]
  | number => simp [processColumnValue, HeaderColumn.name]
  | language => simp [processColumnValue, HeaderColumn.name]
  | campaignName => simp [processColumnValue, HeaderColumn.name]
  | param p =>
    have h := fun s hs => name_ne_of_colon T p "" s hs
    simp only [String.append_empty] at h
    have e : processColumnValue m (T ++ ":" ++ p) v = handleDynamicColumns m (T ++ ":" ++ p) v := by
      unfold processColumnValue
      rw [if_neg (h _ (by decide)), if_neg (h _ (by decide)), if_neg (h _ (by decide)),
        if_neg (h _ (by decide))]
    simp only [HeaderColumn.name, e, reduceCtorEq, if_false]
    exact handleDynamicColumns_fields _ _ _
  | fileName p =>
    simp only [HeaderColumn.name, processColumnValue_fileName, reduceCtorEq, if_false]
    simp

theorem foldl_cells_fields (T : String) (cells : List (HeaderColumn × String))
    (m : connectlyTemplateMessageDTO) :
    (cells.foldl (fun m cv => processColumnValue m (cv.1.name T) cv.2) m).Sender
        = lastCellOr HeaderColumn.sender cells m.Sender ∧
      (cells.foldl (fun m cv => processColumnValue m (cv.1.name T) cv.2) m).Number
        = lastCellOr HeaderColumn.number cells m.Number ∧
      (cells.foldl (fun m cv => processColumnValue m (cv.1.name T) cv.2) m).Language
        = lastCellOr HeaderColumn.language cells m.Language ∧
      (cells.foldl (fun m cv => processColumnValue m (cv.1.name T) cv.2) m).CampaignName
        = lastCellOr HeaderColumn.campaignName cells m.CampaignName ∧
      (cells.foldl (fun m cv => processColumnValue m (cv.1.name T) cv.2) m).TemplateName
        = m.TemplateName := by
  induction cells generalizing m with
  | nil => simp [lastCellOr]
  | cons cv rest ih =>
    obtain ⟨c, v⟩ := cv
    obtain ⟨h1, h2, h3, h4, h5⟩ := processColumnValue_name_fields T c v m
    obtain ⟨i1, i2, i3, i4, i5⟩ := ih (processColumnValue m (c.name T) v)
    simp only [List.foldl_cons, lastCellOr_cons]
    exact ⟨i1.trans (by rw [h1]), i2.trans (by rw [h2]), i3.trans (by rw [h3]),
      i4.trans (by rw [h4]), i5.trans h5⟩

theorem foldCells_expectedMessage (T : String) (hdr : List HeaderColumn) (row : List String)
    (hT : T ≠ "") (hTc : ':' ∉ T.data)
    (hp : ∀ p, HeaderColumn.param p ∈ hdr → ':' ∉ p.data ∧ p ≠ "filename")
    (hnd : (paramNames hdr).Nodup) (hrow : row.length = hdr.length) :
    foldCells { TemplateName := (headerScan (hdr.map (HeaderColumn.name T))).1,
                TemplateParameters := (headerScan (hdr.map (HeaderColumn.name T))).2 }
        ((hdr.map (HeaderColumn.name T)).zip row)
      = expectedMessage T hdr row := by
  have hfst : (hdr.zip row).map Prod.fst = hdr := List.map_fst_zip _ _ (by omega)
  have hfold : ∀ m, foldCells m ((hdr.map (HeaderColumn.name T)).zip row)
      = (hdr.zip row).foldl (fun m cv => processColumnValue m (cv.1.name T) cv.2) m := by
    intro m
    rw [foldCells, List.zip_map_left, List.foldl_map]
    rfl
  rw [hfold, headerScan_of_header T hdr hT hTc hp]
  obtain ⟨h1, h2, h3, h4, h5⟩ := foldl_cells_fields T (hdr.zip row)
    { TemplateName := if paramNames hdr = [] then "" else T,
      TemplateParameters := (paramNames hdr).map (fun p => { Name := p }) }
  have h6 := foldl_cells_parameters T hTc (hdr.zip row) (by rwa [hfst]) (by rwa [hfst]) []
    (by simp)
    { TemplateName := if paramNames hdr = [] then "" else T,
      TemplateParameters := (paramNames hdr).map (fun p => { Name := p }) }
    (by rw [hfst]; rfl)
  exact message_ext _ _ h1 h2 h3 h5 (by simpa using h6) h4

/-- C1 (row loop): for a header made of fixed columns and pairwise distinct
two-part columns `T:p` (non-empty `T`, no `:` inside `T` or `p`, `p` not
`filename`; three-part columns `T:p:filename` may be present and are ignored)
and data rows of the header's length, `fetchAndParseCsv` returns without error
exactly one message per row, in row order: its fixed fields are the cells
under `sender`, `number`, `language`, `campaign_name`, its `TemplateName` is
`T` (empty when there is no two-part column), and its parameters are the `p` in
header order, each with `Value` the cell under `T:p` when that cell is
non-empty and absent when it is empty. -/
theorem fetchAndParseCsv_rows (T : String) (hdr : List HeaderColumn) (rows : List (List String))
    (hT : T ≠ "") (hTc : ':' ∉ T.data)
    (hp : ∀ p, HeaderColumn.param p ∈ hdr → ':' ∉ p.data ∧ p ≠ "filename")
    (hnd : (paramNames hdr).Nodup) (hrows : ∀ r ∈ rows, r.length = hdr.length) :
    fetchAndParseCsv (csvOf (hdr.map (HeaderColumn.name T)) rows)
      = some (rows.map (expectedMessage T hdr), none) := by
  rw [fetchAndParseCsv_ok _ _ (fun r hr => by simp [hrows r hr])]
  congr 2
  apply List.map_congr_left
  intro r hr
  exact foldCells_expectedMessage T hdr r hT hTc hp hnd (hrows r hr)

/-- Witness of C1: the end-to-end scenario of the specification. -/
theorem fetchAndParseCsv_rows_witness :
    fetchAndParseCsv (csvOf ["sender", "number", "language", "campaign_name", "promo:body_text"]
        [["a", "1", "en", "c1", "hi"], ["a", "2", "en", "c1", ""]])
      = some ([{ Sender := "a", Number := "1", Language := "en", TemplateName := "promo",
                 TemplateParameters := [{ Name := "body_text", Value := some "hi" }],
                 CampaignName := "c1" },
               { Sender := "a", Number := "2", Language := "en", TemplateName := "promo",
                 TemplateParameters := [{ Name := "body_text", Value := none }],
                 CampaignName := "c1" }], none) :=
  fetchAndParseCsv_rows "promo"
    [HeaderColumn.sender, HeaderColumn.number, HeaderColumn.language, HeaderColumn.campaignName,
      HeaderColumn.param "body_text"]
    [["a", "1", "en", "c1", "hi"], ["a", "2", "en", "c1", ""]]
    (by decide) (by decide)
    (by
      intro p hmem
      simp only [List.mem_cons, HeaderColumn.param.injEq, List.mem_singleton, reduceCtorEq,
        false_or, or_false, List.not_mem_nil] at hmem
      subst hmem
      decide)
    (by decide) (by decide)

/-! ## Rows do not interfere -/

theorem Heap.write_spec (heap : Heap) (addr : Nat)
    (f : List connectlyTemplateMessageParametersDTO → List connectlyTemplateMessageParametersDTO)
    (h : addr < heap.length) :
    (heap.write addr f).length = heap.length ∧
      (∀ b, b ≠ addr → (heap.write addr f)[b]? = heap[b]?) ∧
      (heap.write addr f)[addr]?.getD [] = f (heap[addr]?.getD []) := by
  refine ⟨by simp [Heap.write], ?_, ?_⟩
  · intro b hb
    simp [Heap.write, List.getElem?_set, Ne.symm hb]
  · simp [Heap.write, List.getElem?_set, h]

theorem processColumnValueRef_spec (heap : Heap) (m : MessageRef) (c v : String)
    (h : m.TemplateParameters < heap.length) :
    (processColumnValueRef heap m c v).1.length = heap.length ∧
      (processColumnValueRef heap m c v).2.TemplateParameters = m.TemplateParameters ∧
      (∀ b, b ≠ m.TemplateParameters → (processColumnValueRef heap m c v).1[b]? = heap[b]?) ∧
      deref (processColumnValueRef heap m c v).1 (processColumnValueRef heap m c v).2
        = processColumnValue (deref heap m) c v := by
  obtain ⟨w1, w2, w3⟩ := Heap.write_spec heap m.TemplateParameters (attachFileName v) h
  unfold processColumnValueRef processColumnValue
  split_ifs
  · exact ⟨rfl, rfl, fun _ _ => rfl, rfl⟩
  · exact ⟨rfl, rfl, fun _ _ => rfl, rfl⟩
  · exact ⟨rfl, rfl, fun _ _ => rfl, rfl⟩
  · exact ⟨rfl, rfl, fun _ _ => rfl, rfl⟩
  · unfold handleDynamicColumnsRef handleDynamicColumns
    split
    · rename_i part0 suffix heq
      split
      · exact ⟨w1, rfl, w2, by simp only [deref, w3]⟩
      · obtain ⟨a1, a2, a3⟩ :=
          Heap.write_spec heap m.TemplateParameters (assignValue suffix v) h
        exact ⟨a1, rfl, a2, by simp only [deref, a3]⟩
    · exact ⟨rfl, rfl, fun _ _ => rfl, rfl⟩

theorem processRowRef_spec (columns : List String) (i : Nat) (row : List String)
    (heap : Heap) (m : MessageRef) (h : m.TemplateParameters < heap.length)
    (hlen : i + row.length ≤ columns.length) :
    ∃ heap2 m2, processRowRef columns i row (heap, m) = some (heap2, m2) ∧
      heap2.length = heap.length ∧ m2.TemplateParameters = m.TemplateParameters ∧
      (∀ b, b ≠ m.TemplateParameters → heap2[b]? = heap[b]?) ∧
      deref heap2 m2 = foldCells (deref heap m) ((columns.drop i).zip row) := by
  induction row generalizing i heap m with
  | nil => exact ⟨heap, m, rfl, rfl, rfl, fun _ _ => rfl, by simp [foldCells]⟩
  | cons value rest ih =>
    have hi : i < columns.length := by simp at hlen; omega
    have hdrop : columns.drop i = columns[i] :: columns.drop (i + 1) :=
      List.drop_eq_getElem_cons hi
    obtain ⟨s1, s2, s3, s4⟩ := processColumnValueRef_spec heap m columns[i] value h
    obtain ⟨heap2, m2, e, l2, a2, f2, d2⟩ :=
      ih (i + 1) (processColumnValueRef heap m columns[i] value).1
        (processColumnValueRef heap m columns[i] value).2 (by rw [s1, s2]; exact h)
        (by simp at hlen ⊢; omega)
    refine ⟨heap2, m2, ?_, l2.trans s1, a2.trans s2, ?_, ?_⟩
    · rw [processRowRef, List.getElem?_eq_getElem hi]
      exact e
    · intro b hb
      rw [f2 b (by rw [s2]; exact hb), s3 b hb]
    · rw [d2, s4, hdrop]
      simp only [foldCells, List.zip_cons_cons, List.foldl_cons]

theorem mapRowRef_spec (columns : List String) (templateName : String) (params : Nat)
    (heap : Heap) (row : List String) (hlen : row.length ≤ columns.length) :
    ∃ heap2 m2, mapRowRef columns templateName params heap row = some (heap2, m2) ∧
      heap2.length = heap.length + 1 ∧ m2.TemplateParameters = heap.length ∧
      (∀ b, b < heap.length → heap2[b]? = heap[b]?) ∧
      deref heap2 m2
        = foldCells { TemplateName := templateName,
                      TemplateParameters := heap[params]?.getD [] } (columns.zip row) := by
  obtain ⟨heap2, m2, e, l2, a2, f2, d2⟩ := processRowRef_spec columns 0 row
    (heap ++ [heap[params]?.getD []])
    { TemplateName := templateName, TemplateParameters := heap.length } (by simp)
    (by omega)
  refine ⟨heap2, m2, e, by simpa using l2, a2, ?_, ?_⟩
  · intro b hb
    rw [f2 b (by simp; omega), List.getElem?_append_left hb]
  · rw [d2]
    simp [deref]

theorem rowLoopRef_spec (columns : List String) (templateName : String) (params : Nat)
    (rows : List (List String)) (hrows : ∀ r ∈ rows, r.length ≤ columns.length)
    (heap : Heap) (msgs : List MessageRef) (hp : params < heap.length)
    (hm : ∀ m ∈ msgs, m.TemplateParameters < heap.length) :
    ∃ heap2 msgs2,
      rowLoopRef columns templateName params (rows.map Except.ok) (heap, msgs)
        = some (heap2, msgs2, none) ∧
      (∀ b, b < heap.length → heap2[b]? = heap[b]?) ∧
      msgs2.map (deref heap2)
        = msgs.map (deref heap) ++ rows.map (fun r =>
            foldCells { TemplateName := templateName,
                        TemplateParameters := heap[params]?.getD [] } (columns.zip r)) := by
  induction rows generalizing heap msgs with
  | nil => exact ⟨heap, msgs, rfl, fun _ _ => rfl, by simp⟩
  | cons r rest ih =>
    obtain ⟨heap1, m1, e1, l1, a1, f1, d1⟩ :=
      mapRowRef_spec columns templateName params heap r (hrows r (List.mem_cons_self _ _))
    obtain ⟨heap2, msgs2, e2, f2, d2⟩ :=
      ih (fun r hr => hrows r (List.mem_cons_of_mem _ hr)) heap1 (msgs ++ [m1])
        (by omega) (by
          intro m hmem
          rcases List.mem_append.1 hmem with h | h
          · have := hm m h
            omega
          · simp only [List.mem_singleton] at h
            subst h
            omega)
    refine ⟨heap2, msgs2, ?_, ?_, ?_⟩
    · rw [List.map_cons, rowLoopRef, e1]
      exact e2
    · intro b hb
      rw [f2 b (by omega), f1 b hb]
    · have hold : msgs.map (deref heap1) = msgs.map (deref heap) := by
        apply List.map_congr_left
        intro m hmem
        simp only [deref, f1 _ (hm m hmem)]
      rw [d2, f1 params hp, List.map_append, hold, List.map_singleton, d1]
      simp

theorem fetchAndParseCsvRef_ok (columns : List String) (rows : List (List String))
    (h : ∀ r ∈ rows, r.length ≤ columns.length) :
    ∃ result, fetchAndParseCsvRef (csvOf columns rows) = some result ∧
      result.1[0]? = some (headerScan columns).2 ∧
      result.2.2 = none ∧
      readMessages result = rows.map (fun r =>
        foldCells { TemplateName := (headerScan columns).1,
                    TemplateParameters := (headerScan columns).2 } (columns.zip r)) := by
  obtain ⟨heap2, msgs2, e, f, d⟩ := rowLoopRef_spec columns (headerScan columns).1 0 rows h
    [(headerScan columns).2] [] (by simp) (by simp)
  refine ⟨(heap2, msgs2, none), e, ?_, rfl, ?_⟩
  · simpa using f 0 (by simp)
  · simpa [readMessages] using d

/-- C9 (copy isolation): for every header and all data rows of the header's
length, in the model with explicit backing arrays: parsing succeeds; the
array of the schema's `params` is, at the end, what the header scan derived;
the message at position `i` is the single message obtained by parsing the
header with row `i` alone; and the messages are those of the value-level
`fetchAndParseCsv`. -/
theorem rows_do_not_interfere (columns : List String) (rows : List (List String))
    (h : ∀ r ∈ rows, r.length = columns.length) :
    ∃ result, fetchAndParseCsvRef (csvOf columns rows) = some result ∧
      result.1[0]? = some (headerScan columns).2 ∧
      (∀ (i : Nat) (r : List String), rows[i]? = some r →
        ∃ single m, fetchAndParseCsvRef (csvOf columns [r]) = some single ∧
          readMessages single = [m] ∧ (readMessages result)[i]? = some m) ∧
      fetchAndParseCsv (csvOf columns rows) = some (readMessages result, none) := by
  have hle : ∀ r ∈ rows, r.length ≤ columns.length := fun r hr => (h r hr).le
  obtain ⟨result, e, t, _, d⟩ := fetchAndParseCsvRef_ok columns rows hle
  refine ⟨result, e, t, ?_, ?_⟩
  · intro i r hir
    have hr : r ∈ rows := List.getElem?_mem hir
    obtain ⟨single, e1, _, _, d1⟩ := fetchAndParseCsvRef_ok columns [r]
      (by
        intro x hx
        simp only [List.mem_singleton] at hx
        subst hx
        exact hle x hr)
    refine ⟨single, _, e1, by simpa using d1, ?_⟩
    rw [d, List.getElem?_map, hir]
    rfl
  · rw [d, fetchAndParseCsv_ok columns rows hle]

/-- Witness of C9: the second row leaves its cell empty after the first row
set it; the first message keeps its value and the second has none. -/
theorem rows_do_not_interfere_witness :
    ∃ result, fetchAndParseCsvRef (csvOf ["number", "t:a"] [["1", "x"], ["2", ""]])
        = some result ∧
      result.1[0]? = some (headerScan ["number", "t:a"]).2 ∧
      (∀ (i : Nat) (r : List String), [["1", "x"], ["2", ""]][i]? = some r →
        ∃ single m, fetchAndParseCsvRef (csvOf ["number", "t:a"] [r]) = some single ∧
          readMessages single = [m] ∧ (readMessages result)[i]? = some m) ∧
      fetchAndParseCsv (csvOf ["number", "t:a"] [["1", "x"], ["2", ""]])
        = some (readMessages result, none) :=
  rows_do_not_interfere ["number", "t:a"] [["1", "x"], ["2", ""]] (by decide)

/-! ## Dispatch pipeline -/

theorem sumOver_set (f : Worker → Nat) (ws : List Worker) (i : Nat) (w old : Worker)
    (h : ws[i]? = some old) :
    sumOver f (ws.set i w) + f old = sumOver f ws + f w := by
  induction ws generalizing i with
  | nil => simp at h
  | cons x xs ih =>
    cases i with
    | zero =>
      simp only [List.getElem?_cons_zero, Option.some.injEq] at h
      subst h
      simp only [List.set_cons_zero, sumOver]
      omega
    | succ j =>
      simp only [List.getElem?_cons_succ] at h
      have := ih j h
      simp only [List.set_cons_succ, sumOver]
      omega

theorem step_measure (batchSize : Nat) (a : Action) (s s2 : Pipeline)
    (h : step batchSize a s = some s2) : s2.measure < s.measure := by
  cases a with
  | producerSend =>
    simp only [step] at h
    split at h
    · rename_i job rest hp
      split at h
      · cases h
        simp only [Pipeline.measure, hp, List.length_append, List.length_cons, List.length_nil]
        omega
      · cases h
    · cases h
  | producerClose =>
    simp only [step] at h
    split at h
    · rename_i hc
      cases h
      simp only [Pipeline.measure, hc.2]
      simp
    · cases h
  | workerReceive i =>
    simp only [step] at h
    split at h
    · rename_i job rest hw hm
      cases h
      have := sumOver_set Worker.weight s.workers i (Worker.afterJob job) _ hw
      have hle : (Worker.afterJob job).weight ≤ 3 := by
        unfold Worker.afterJob
        split <;> simp [Worker.weight]
      have h1 : Worker.receiving.weight = 1 := rfl
      simp only [Pipeline.measure, hm, List.length_cons, h1] at this ⊢
      omega
    · cases h
  | workerExit i =>
    simp only [step] at h
    split at h
    · rename_i hw
      split at h
      · cases h
        have := sumOver_set Worker.weight s.workers i Worker.done _ hw
        simp only [Pipeline.measure, Worker.weight] at this ⊢
        omega
      · cases h
    · cases h
  | workerPush i =>
    simp only [step] at h
    split at h
    · rename_i resp hw
      split at h
      · cases h
        have := sumOver_set Worker.weight s.workers i Worker.receiving _ hw
        simp only [Pipeline.measure, Worker.weight, List.length_append, List.length_cons,
          List.length_nil] at this ⊢
        omega
      · cases h
    · cases h
  | closerClose =>
    simp only [step] at h
    split at h
    · rename_i hc
      cases h
      simp only [Pipeline.measure, hc.2]
      simp
    · cases h
  | collectorReceive =>
    simp only [step] at h
    split at h
    · cases h
    · split at h
      · rename_i resp rest hr
        cases h
        simp only [Pipeline.measure, hr, List.length_cons]
        omega
      · cases h
  | collectorReturn =>
    simp only [step] at h
    split at h
    · rename_i hc
      cases h
      simp only [Pipeline.measure, hc.1]
      simp
    · cases h

theorem run_measure (batchSize : Nat) (sched : List Action) (s s2 : Pipeline)
    (h : run batchSize sched s = some s2) : sched.length + s2.measure ≤ s.measure := by
  induction sched generalizing s with
  | nil =>
    simp only [run, Option.some.injEq] at h
    subst h
    simp
  | cons a rest ih =>
    simp only [run] at h
    split at h
    · cases h
    · rename_i s1 hs
      have h1 := step_measure batchSize a s s1 hs
      have h2 := ih s1 h
      simp only [List.length_cons]
      omega

theorem run_append (batchSize : Nat) (a b : List Action) (s : Pipeline) :
    run batchSize (a ++ b) s = (run batchSize a s).bind (run batchSize b) := by
  induction a generalizing s with
  | nil => rfl
  | cons x rest ih =>
    simp only [List.cons_append, run]
    split
    · rfl
    · exact ih _

theorem step_exists (batchSize : Nat) (hb : 1 ≤ batchSize) (s : Pipeline)
    (hret : s.returned = false) : ∃ a s2, step batchSize a s = some s2 := by
  suffices hsome : ∃ a, (step batchSize a s).isSome by
    obtain ⟨a, ha⟩ := hsome
    exact ⟨a, Option.isSome_iff_exists.1 ha⟩
  cases hr : s.responseChan with
  | cons r rest => exact ⟨Action.collectorReceive, by simp [step, hret, hr]⟩
  | nil =>
    by_cases hc : s.responseClosed = true
    · exact ⟨Action.collectorReturn, by simp [step, hret, hr, hc]⟩
    · have hc2 : s.responseClosed = false := by simpa using hc
      by_cases hall : ∀ w ∈ s.workers, w = Worker.done
      · exact ⟨Action.closerClose, by simp only [step, hc2, and_true, if_pos hall]; rfl⟩
      · push_neg at hall
        obtain ⟨w, hw, hne⟩ := hall
        obtain ⟨i, hi⟩ := List.mem_iff_getElem?.1 hw
        cases w with
        | done => exact absurd rfl hne
        | sending resp =>
          refine ⟨Action.workerPush i, ?_⟩
          have hlt : s.responseChan.length < batchSize := by rw [hr]; simpa using hb
          simp [step, hi, hlt]
        | receiving =>
          cases hm : s.messagesChan with
          | cons job rest => exact ⟨Action.workerReceive i, by simp [step, hi, hm]⟩
          | nil =>
            by_cases hmc : s.messagesClosed = true
            · exact ⟨Action.workerExit i, by simp [step, hi, hm, hmc]⟩
            · have hmc2 : s.messagesClosed = false := by simpa using hmc
              cases hp : s.pending with
              | nil => exact ⟨Action.producerClose, by simp [step, hp, hmc2]⟩
              | cons job rest =>
                refine ⟨Action.producerSend, ?_⟩
                have hlt : s.messagesChan.length < batchSize := by rw [hm]; simpa using hb
                simp [step, hp, hlt]

theorem run_to_return_bounded (batchSize : Nat) (hb : 1 ≤ batchSize) (n : Nat) :
    ∀ s : Pipeline, s.measure ≤ n →
      ∃ sched s2, run batchSize sched s = some s2 ∧ s2.returned = true := by
  induction n with
  | zero =>
    intro s hs
    by_cases hret : s.returned = true
    · exact ⟨[], s, rfl, hret⟩
    · simp only [Pipeline.measure, if_neg hret] at hs
      omega
  | succ k ih =>
    intro s hs
    by_cases hret : s.returned = true
    · exact ⟨[], s, rfl, hret⟩
    · obtain ⟨a, s1, hstep⟩ := step_exists batchSize hb s (by simpa using hret)
      have hlt := step_measure batchSize a s s1 hstep
      obtain ⟨sched, s2, hrun, hdone⟩ := ih s1 (by omega)
      exact ⟨a :: sched, s2, by simp [run, hstep, hrun], hdone⟩

theorem run_to_return (batchSize : Nat) (hb : 1 ≤ batchSize) (s : Pipeline) :
    ∃ sched s2, run batchSize sched s = some s2 ∧ s2.returned = true :=
  run_to_return_bounded batchSize hb s.measure s (Nat.le_refl _)

theorem successes_append (a b : List Job) : successes (a ++ b) = successes a ++ successes b := by
  induction a with
  | nil => rfl
  | cons job rest ih =>
    simp only [List.cons_append, successes]
    split <;> simp [ih]

theorem count_successes_cons (r : apiResponse) (job : Job) (rest : List Job) :
    (successes (job :: rest)).count r
      = Worker.holds r (Worker.afterJob job) + (successes rest).count r := by
  simp only [successes, Worker.afterJob]
  split
  · rename_i resp heq
    simp only [Worker.holds, List.count_cons, beq_iff_eq]
    omega
  · rename_i hne
    cases ho : job.outcome with
    | created resp => exact absurd ho (hne resp)
    | marshalError => simp [Worker.holds]
    | sendError => simp [Worker.holds]

theorem length_successes (jobs : List Job) :
    (successes jobs).length + failures jobs = jobs.length := by
  induction jobs with
  | nil => rfl
  | cons job rest ih =>
    simp only [successes, failures]
    split <;> simp <;> omega

theorem Job.sendCalls_le (job : Job) : job.sendCalls ≤ 1 := by
  unfold Job.sendCalls
  split <;> simp

theorem Worker.afterJob_ne_done (job : Job) : Worker.afterJob job ≠ Worker.done := by
  unfold Worker.afterJob
  split <;> simp

theorem sumOver_holds_of_all_done (r : apiResponse) (ws : List Worker)
    (h : ∀ w ∈ ws, w = Worker.done) : sumOver (Worker.holds r) ws = 0 := by
  induction ws with
  | nil => rfl
  | cons w ws ih =>
    have hw : w = Worker.done := h w (List.mem_cons_self _ _)
    subst hw
    simp only [sumOver, Worker.holds, Nat.zero_add]
    exact ih (fun w hw => h w (List.mem_cons_of_mem _ hw))

theorem Pipeline.inv_initial (workerNum : Nat) (jobs : List Job) :
    Pipeline.Inv workerNum jobs (Pipeline.initial workerNum jobs) := by
  have hz : ∀ r n, sumOver (Worker.holds r) (List.replicate n Worker.receiving) = 0 := by
    intro r n
    induction n with
    | zero => rfl
    | succ k ih => simp [List.replicate_succ, sumOver, Worker.holds, ih]
  refine ⟨?_, ?_, ?_, ?_, ?_, ?_, ?_⟩
  · intro r
    simp [Pipeline.initial, successes, hz]
  · simp [Pipeline.initial]
  · rintro ⟨w, hw, hd⟩
    simp only [Pipeline.initial] at hw
    rw [List.eq_of_mem_replicate hw] at hd
    cases hd
  · simp [Pipeline.initial]
  · simp [Pipeline.initial]
  · simp [Pipeline.initial]
  · simp [Pipeline.initial]

theorem not_all_done_of_getElem? (ws : List Worker) (i : Nat) (w : Worker)
    (hw : ws[i]? = some w) (hne : w ≠ Worker.done) : ¬ ∀ x ∈ ws, x = Worker.done :=
  fun hall => hne (hall w (List.getElem?_mem hw))

theorem exists_done_of_set (ws : List Worker) (i : Nat) (w : Worker) (hne : w ≠ Worker.done)
    (h : ∃ x ∈ ws.set i w, x = Worker.done) : ∃ x ∈ ws, x = Worker.done := by
  obtain ⟨x, hx, hd⟩ := h
  rcases List.mem_or_eq_of_mem_set hx with hmem | heq
  · exact ⟨x, hmem, hd⟩
  · exact absurd (heq ▸ hd) hne

theorem Pipeline.inv_step (workerNum : Nat) (jobs : List Job) (batchSize : Nat) (a : Action)
    (s s2 : Pipeline) (hinv : Pipeline.Inv workerNum jobs s)
    (h : step batchSize a s = some s2) : Pipeline.Inv workerNum jobs s2 := by
  obtain ⟨i1, i2, i3, i4, i5, i6, i7⟩ := hinv
  cases a with
  | producerSend =>
    simp only [step] at h
    split at h
    · rename_i job rest hp
      split at h
      · cases h
        have hopen : s.messagesClosed = false := by
          cases hc : s.messagesClosed with
          | false => rfl
          | true => rw [i2 hc] at hp; cases hp
        refine ⟨?_, ?_, ?_, i4, i5, i6, ?_⟩
        · intro r
          have := i1 r
          rw [hp, count_successes_cons] at this
          have e : (successes (s.messagesChan ++ [job])).count r
              = (successes s.messagesChan).count r + Worker.holds r (Worker.afterJob job) := by
            rw [successes_append, List.count_append, count_successes_cons]
            simp [successes]
          simp only [e]
          omega
        · intro hc
          simp only at hc
          rw [hopen] at hc
          cases hc
        · intro hd
          have := (i3 hd).2
          rw [hopen] at this
          cases this
        · simp only [hp, List.length_cons, List.length_append, List.length_nil] at i7 ⊢
          omega
      · cases h
    · cases h
  | producerClose =>
    simp only [step] at h
    split at h
    · rename_i hc
      cases h
      exact ⟨i1, fun _ => hc.1, fun hd => ⟨(i3 hd).1, rfl⟩, i4, i5, i6, i7⟩
    · cases h
  | workerReceive i =>
    simp only [step] at h
    split at h
    · rename_i job rest hw hm
      cases h
      have hnd : ¬ ∃ x ∈ s.workers, x = Worker.done := by
        intro hd
        have := (i3 hd).1
        rw [hm] at this
        cases this
      refine ⟨?_, i2, ?_, ?_, ?_, ?_, ?_⟩
      · intro r
        have h1 := i1 r
        have h2 := sumOver_set (Worker.holds r) s.workers i (Worker.afterJob job) _ hw
        have h0 : Worker.holds r Worker.receiving = 0 := rfl
        rw [hm, count_successes_cons] at h1
        rw [h0] at h2
        simp only
        omega
      · intro hd
        exact absurd (exists_done_of_set _ _ _ (Worker.afterJob_ne_done job) hd) hnd
      · intro hc
        exact absurd (i4 hc) (not_all_done_of_getElem? _ _ _ hw (by simp))
      · simpa using i5
      · intro hr
        exact absurd (i4 (i6 hr).2) (not_all_done_of_getElem? _ _ _ hw (by simp))
      · have := Job.sendCalls_le job
        simp only [hm, List.length_cons] at i7 ⊢
        omega
    · cases h
  | workerExit i =>
    simp only [step] at h
    split at h
    · rename_i hw
      split at h
      · rename_i hc
        cases h
        refine ⟨?_, i2, fun _ => hc, ?_, ?_, i6, i7⟩
        · intro r
          have h1 := i1 r
          have h2 := sumOver_set (Worker.holds r) s.workers i Worker.done _ hw
          have h0 : Worker.holds r Worker.receiving = 0 := rfl
          have h3 : Worker.holds r Worker.done = 0 := rfl
          rw [h0, h3] at h2
          simp only
          omega
        · intro hcl
          exact absurd (i4 hcl) (not_all_done_of_getElem? _ _ _ hw (by simp))
        · simpa using i5
      · cases h
    · cases h
  | workerPush i =>
    simp only [step] at h
    split at h
    · rename_i resp hw
      split at h
      · cases h
        refine ⟨?_, i2, ?_, ?_, ?_, ?_, i7⟩
        · intro r
          have h1 := i1 r
          have h2 := sumOver_set (Worker.holds r) s.workers i Worker.receiving _ hw
          have h0 : Worker.holds r Worker.receiving = 0 := rfl
          have h3 : Worker.holds r (Worker.sending resp) = [resp].count r := by
            by_cases hrr : resp = r
            · simp [Worker.holds, hrr]
            · simp [Worker.holds, hrr, List.count_cons]
          rw [h0, h3] at h2
          simp only [List.count_append]
          omega
        · intro hd
          exact i3 (exists_done_of_set _ _ _ (by simp) hd)
        · intro hcl
          exact absurd (i4 hcl) (not_all_done_of_getElem? _ _ _ hw (by simp))
        · simpa using i5
        · intro hr
          exact absurd (i4 (i6 hr).2) (not_all_done_of_getElem? _ _ _ hw (by simp))
      · cases h
    · cases h
  | closerClose =>
    simp only [step] at h
    split at h
    · rename_i hc
      cases h
      exact ⟨i1, i2, i3, fun _ => hc.1, i5, fun hr => ⟨(i6 hr).1, rfl⟩, i7⟩
    · cases h
  | collectorReceive =>
    simp only [step] at h
    split at h
    · cases h
    · rename_i hret
      split at h
      · rename_i resp rest hr
        cases h
        refine ⟨?_, i2, i3, i4, i5, fun hret2 => absurd hret2 hret, i7⟩
        intro r
        have h1 := i1 r
        have h3 : (resp :: rest).count r = [resp].count r + rest.count r := by
          rw [← List.count_append]
          rfl
        rw [hr, h3] at h1
        simp only [List.count_append]
        omega
      · cases h
  | collectorReturn =>
    simp only [step] at h
    split at h
    · rename_i hc
      cases h
      exact ⟨i1, i2, i3, i4, i5, fun _ => hc.2, i7⟩
    · cases h

theorem Pipeline.inv_run (workerNum : Nat) (jobs : List Job) (batchSize : Nat)
    (sched : List Action) (s s2 : Pipeline) (hinv : Pipeline.Inv workerNum jobs s)
    (h : run batchSize sched s = some s2) : Pipeline.Inv workerNum jobs s2 := by
  induction sched generalizing s with
  | nil =>
    simp only [run, Option.some.injEq] at h
    exact h ▸ hinv
  | cons a rest ih =>
    simp only [run] at h
    split at h
    · cases h
    · rename_i s1 hs
      exact ih s1 (Pipeline.inv_step workerNum jobs batchSize a s s1 hinv hs) h

theorem Pipeline.inv_returned (workerNum : Nat) (hw : 1 ≤ workerNum) (jobs : List Job)
    (s : Pipeline) (hinv : Pipeline.Inv workerNum jobs s) (hret : s.returned = true) :
    s.collected.Perm (successes jobs) := by
  obtain ⟨i1, i2, i3, i4, i5, i6, _⟩ := hinv
  obtain ⟨hr, hc⟩ := i6 hret
  have hall := i4 hc
  have hex : ∃ w ∈ s.workers, w = Worker.done := by
    cases hws : s.workers with
    | nil => rw [hws] at i5; simp at i5; omega
    | cons w ws => exact ⟨w, by simp, hall w (by rw [hws]; simp)⟩
  obtain ⟨hm, hmc⟩ := i3 hex
  have hp := i2 hmc
  rw [List.perm_iff_count]
  intro r
  have h1 := i1 r
  rw [hp, hm, hr, sumOver_holds_of_all_done r _ hall] at h1
  simpa [successes] using h1

theorem Pipeline.measure_initial (workerNum : Nat) (jobs : List Job) :
    (Pipeline.initial workerNum jobs).measure = 4 * jobs.length + workerNum + 3 := by
  have hz : ∀ n, sumOver Worker.weight (List.replicate n Worker.receiving) = n := by
    intro n
    induction n with
    | zero => rfl
    | succ k ih =>
      simp only [List.replicate_succ, sumOver, Worker.weight, ih]
      omega
  simp only [Pipeline.measure, Pipeline.initial, hz, List.length_nil, Bool.false_eq_true,
    if_false]
  omega

/-- C5 (partial failure containment): for `batchSize >= 1`, `workerNum >= 1`
and any list of jobs, along every interleaving of producer, workers, closer and
collector from the initial state: the interleaving has at most
`4 * N + workerNum + 3` actions (no infinite run); as long as the function has
not returned some goroutine can take a step (no deadlock); the interleaving
extends to one in which the function returns; and when the function has
returned, the error is `nil` and `ApiResponses` is a permutation of the
responses of the successfully sent messages, so it has exactly `N - K`
entries, `K` being the number of failed sends. -/
theorem pipeline_failure_containment (batchSize workerNum : Nat) (jobs : List Job)
    (hb : 1 ≤ batchSize) (hw : 1 ≤ workerNum) (sched : List Action) (s : Pipeline)
    (hrun : run batchSize sched (Pipeline.initial workerNum jobs) = some s) :
    sched.length ≤ 4 * jobs.length + workerNum + 3 ∧
      (s.returned = false → ∃ a s2, step batchSize a s = some s2) ∧
      (∃ more s2, run batchSize (sched ++ more) (Pipeline.initial workerNum jobs) = some s2 ∧
        s2.returned = true) ∧
      (∀ ret, s.result = some ret →
        ret.2 = none ∧ ret.1.ApiResponses.Perm (successes jobs) ∧
          ret.1.ApiResponses.length = jobs.length - failures jobs) := by
  have hinv := Pipeline.inv_run workerNum jobs batchSize sched _ s
    (Pipeline.inv_initial workerNum jobs) hrun
  refine ⟨?_, step_exists batchSize hb s, ?_, ?_⟩
  · have := run_measure batchSize sched _ s hrun
    rw [Pipeline.measure_initial] at this
    omega
  · obtain ⟨more, s2, hmore, hdone⟩ := run_to_return batchSize hb s
    exact ⟨more, s2, by rw [run_append, hrun]; exact hmore, hdone⟩
  · intro ret hret
    unfold Pipeline.result at hret
    split at hret
    · rename_i hreturned
      cases hret
      have hperm := Pipeline.inv_returned workerNum hw jobs s hinv hreturned
      refine ⟨rfl, hperm, ?_⟩
      have := length_successes jobs
      rw [hperm.length_eq]
      omega
    · cases hret

/-- Witness of C5: one worker, capacity one, two messages of which the
second fails to send; one complete interleaving. -/
theorem pipeline_failure_containment_witness :
    ∃ s, run 1 [Action.producerSend, Action.workerReceive 0, Action.producerSend,
          Action.producerClose, Action.workerPush 0, Action.workerReceive 0,
          Action.workerExit 0, Action.collectorReceive, Action.closerClose,
          Action.collectorReturn]
        (Pipeline.initial 1 [{ message := {}, outcome := SendOutcome.created { Id := "1" } },
          { message := {}, outcome := SendOutcome.sendError }]) = some s ∧
      s.result = some ({ ApiResponses := [{ Id := "1" }] }, none) ∧
      (∀ ret, s.result = some ret →
        ret.2 = none ∧
          ret.1.ApiResponses.Perm
            (successes [{ message := {}, outcome := SendOutcome.created { Id := "1" } },
              { message := {}, outcome := SendOutcome.sendError }]) ∧
          ret.1.ApiResponses.length = 2 - 1) :=
  ⟨{ pending := [], messagesChan := [], messagesClosed := true, workers := [Worker.done],
     responseChan := [], responseClosed := true, collected := [{ Id := "1" }],
     returned := true, sendCalls := 2 }, by decide, by decide,
    (pipeline_failure_containment 1 1
      [{ message := {}, outcome := SendOutcome.created { Id := "1" } },
        { message := {}, outcome := SendOutcome.sendError }]
      (by decide) (by decide)
      [Action.producerSend, Action.workerReceive 0, Action.producerSend,
        Action.producerClose, Action.workerPush 0, Action.workerReceive 0,
        Action.workerExit 0, Action.collectorReceive, Action.closerClose,
        Action.collectorReturn] _ (by decide)).2.2.2⟩

/-- C4 (failing input): the source cannot be opened (and likewise when the
header or a data row cannot be read). `fetchAndParseCsv` returns no messages
and the error; in `fetchCSVAndSendAPIRequests` the pipeline then runs over no
messages, so along every interleaving `sendAPIRequest` is never invoked and the
only possible return value is the empty response, but paired with the error
`nil`, not with the error of the parser; that return value is reached, and
`BatchSendCampaign` then reports success. -/
theorem fetchCSVAndSendAPIRequests_drops_error :
    fetchAndParseCsv (Except.error (GoError.other "open missing.csv: no such file or directory"))
        = some ([], some (GoError.other "open missing.csv: no such file or directory")) ∧
      fetchCSVAndSendAPIRequests 1
          (Except.error (GoError.other "open missing.csv: no such file or directory"))
          (fun _ => SendOutcome.sendError)
        = some (Pipeline.initial 1 []) ∧
      fetchCSVAndSendAPIRequests 1 (Except.ok []) (fun _ => SendOutcome.sendError)
        = some (Pipeline.initial 1 []) ∧
      fetchCSVAndSendAPIRequests 1
          (Except.ok [Except.ok ["number", "t:a"], Except.ok ["1", "x"],
            Except.error (GoError.other "record on line 3: wrong number of fields")])
          (fun _ => SendOutcome.sendError)
        = some (Pipeline.initial 1 []) ∧
      (∀ sched s, run 1 sched (Pipeline.initial 1 []) = some s →
        s.sendCalls = 0 ∧ ∀ ret, s.result = some ret → ret = ({ ApiResponses := [] }, none)) ∧
      (run 1 [Action.producerClose, Action.workerExit 0, Action.closerClose,
          Action.collectorReturn] (Pipeline.initial 1 [])).map Pipeline.result
        = some (some ({ ApiResponses := [] }, none)) ∧
      BatchSendCampaign ({ ApiResponses := [] }, none) = ({ ApiResponses := [] }, true) := by
  refine ⟨rfl, rfl, rfl, by decide, ?_, by decide, rfl⟩
  intro sched s hrun
  have hinv := Pipeline.inv_run 1 [] 1 sched _ s (Pipeline.inv_initial 1 []) hrun
  refine ⟨?_, ?_⟩
  · have := hinv.2.2.2.2.2.2
    simp only [List.length_nil] at this
    omega
  · intro ret hret
    unfold Pipeline.result at hret
    split at hret
    · rename_i hreturned
      cases hret
      have hperm := Pipeline.inv_returned 1 (Nat.le_refl 1) [] s hinv hreturned
      simp only [successes, List.perm_nil] at hperm
      rw [hperm]
    · cases hret

end CsvCampaign
